import Mathlib

/-!
Verification of the build/query orchestration scripts of the `msc` experiment
harness.  The definitions below are shallow embeddings of the Python functions
in `scripts/common.py`, `scripts/commands.py`, `scripts/compile.py` and
`scripts/eval_query.py`; theorems state the documented properties of those
functions.

Filesystem paths are modelled as lists of name components of the already
resolved absolute path (`Path.resolve` in Python).  The filesystem itself is a
tree of named entries: a file with a size, or a directory with a list of named
children.
-/

/-- A resolved absolute path, as its list of name components. -/
abbrev FsPath := List String

/-- A filesystem tree: a file with a byte size, or a directory with named
children. -/
inductive FsEntry where
  | file (size : Nat)
  | dir (children : List (String × FsEntry))

/-- Look up the child with the given name in a directory's child list. -/
def findChild : List (String × FsEntry) → String → Option FsEntry
  | [], _ => none
  | c :: rest, n => if c.1 = n then some c.2 else findChild rest n

/-- Drop the child with the given name from a child list. -/
def removeKey : List (String × FsEntry) → String → List (String × FsEntry)
  | [], _ => []
  | c :: rest, n =>
    if c.1 = n then removeKey rest n else c :: removeKey rest n

/-- Apply a function to the entry of the child with the given name. -/
def modifyKey : List (String × FsEntry) → String → (FsEntry → FsEntry) →
    List (String × FsEntry)
  | [], _, _ => []
  | c :: rest, n, g =>
    if c.1 = n then (c.1, g c.2) :: modifyKey rest n g else c :: modifyKey rest n g

/-- Navigate from an entry down a relative path. `none` means the path does
not exist. -/
def lookupPath (e : FsEntry) (p : FsPath) : Option FsEntry :=
  match p with
  | [] => some e
  | n :: rest =>
    match e with
    | .file _ => none
    | .dir cs =>
      match findChild cs n with
      | some c => lookupPath c rest
      | none => none

/-- Delete the entry at the given (non-empty) path, together with its whole
subtree.  Deleting a path that does not exist leaves the tree unchanged. -/
def removeAt (e : FsEntry) (p : FsPath) : FsEntry :=
  match p with
  | [] => e
  | [n] =>
    match e with
    | .file s => .file s
    | .dir cs => .dir (removeKey cs n)
  | n :: rest =>
    match e with
    | .file s => .file s
    | .dir cs => .dir (modifyKey cs n (fun c => removeAt c rest))

/-- `Path.mkdir(parents=True, exist_ok=True)`: create the directory at the
path, creating missing parents as (empty) directories.  Fails (`none`) when the
path or one of its ancestors already exists as a regular file. -/
def mkdirAt (e : FsEntry) (p : FsPath) : Option FsEntry :=
  match p with
  | [] =>
    match e with
    | .file _ => none
    | .dir cs => some (.dir cs)
  | n :: rest =>
    match e with
    | .file _ => none
    | .dir cs =>
      match findChild cs n with
      | some c =>
        match mkdirAt c rest with
        | some c' => some (.dir (modifyKey cs n (fun _ => c')))
        | none => none
      | none =>
        match mkdirAt (.dir []) rest with
        | some c' => some (.dir (cs ++ [(n, c')]))
        | none => none

/-- Total size of an entry: a file's size, or the sum over a directory's
children (the recursion of `file_size` in `common.py`). -/
def totalSize : FsEntry → Nat
  | .file s => s
  | .dir cs => totalSizeList cs
where
  /-- Sum of `totalSize` over a child list. -/
  totalSizeList : List (String × FsEntry) → Nat
  | [] => 0
  | c :: rest => totalSize c.2 + totalSizeList rest

/-- `r` is a (possibly improper) prefix of `p`, component-wise. -/
def isPathPrefix : FsPath → FsPath → Bool
  | [], _ => true
  | _ :: _, [] => false
  | a :: as, b :: bs => a = b && isPathPrefix as bs

/-- `root in path.parents` in Python: `root` is a proper ancestor of `p`,
i.e. a strict component-wise prefix. -/
def properAncestor (root p : FsPath) : Bool :=
  isPathPrefix root p && decide (root.length < p.length)

/-- The designated scratch and output roots of the process
(`TMP_PATH.resolve()` and `OUTPUT_PATH.resolve()` in `common.py`). -/
structure Roots where
  tmp : FsPath
  output : FsPath

/-- Errors raised by the filesystem helpers of `common.py`. -/
inductive FsError where
  | pathSafetyViolation
  | pathNotFound
  | mkdirFailed
deriving Repr, DecidableEq

/-- `common.remove(path)`: no-op if the path does not exist; otherwise raise
unless the resolved path is a proper descendant of the tmp or output root, and
delete the subtree when the check passes.  The result pairs the raised error
(if any) with the filesystem after the call; a raise happens before any
deletion, so the filesystem is returned unchanged in that case. -/
def remove (R : Roots) (fs : FsEntry) (p : FsPath) : Option FsError × FsEntry :=
  match lookupPath fs p with
  | none => (none, fs)
  | some _ =>
    if properAncestor R.tmp p || properAncestor R.output p then
      (none, removeAt fs p)
    else
      (some .pathSafetyViolation, fs)

/-- `common.make_dir(p)`: `mkdir(parents=True, exist_ok=True)`. -/
def make_dir (fs : FsEntry) (p : FsPath) : Option FsError × FsEntry :=
  match mkdirAt fs p with
  | some fs' => (none, fs')
  | none => (some .mkdirFailed, fs)

/-- `common.reset_dir(p)`: `remove(p)` followed by `make_dir(p)`; an error in
`remove` propagates and skips the `make_dir`. -/
def reset_dir (R : Roots) (fs : FsEntry) (p : FsPath) : Option FsError × FsEntry :=
  match remove R fs p with
  | (some e, fs') => (some e, fs')
  | (none, fs') => make_dir fs' p

/-- `common.file_size(path)`: raises if the path does not exist, otherwise the
file's size or the recursive sum of sizes under a directory. -/
def file_size (fs : FsEntry) (p : FsPath) : Except FsError Nat :=
  match lookupPath fs p with
  | none => .error .pathNotFound
  | some e => .ok (totalSize e)

/-! ## `scripts/commands.py`: `build_tree` -/

/-- Render a resolved path as the string passed on a command line
(`str(path)` in Python). -/
def pathStr (p : FsPath) : String :=
  "/" ++ String.intercalate "/" p

/-- The scratch location of the build statistics artifact,
`TMP_PATH / "stats.json"`. -/
def buildStatsPath (R : Roots) : FsPath := R.tmp ++ ["stats.json"]

/-- The spill directory handed to the build tool, `TMP_PATH / "tpie"`. -/
def tpiePath (R : Roots) : FsPath := R.tmp ++ ["tpie"]

/-- Parameters of `commands.build_tree`. -/
structure BuildParams where
  algorithm : String
  treePath : FsPath
  entriesPath : String
  memory : Nat
  offset : Option Nat
  limit : Option Nat
  keepExisting : Bool

/-- The argument list `commands.build_tree` passes to the loader tool. -/
def build_tree_args (R : Roots) (loader : String) (p : BuildParams) : List String :=
  [loader,
   "--algorithm", p.algorithm,
   "--entries", p.entriesPath,
   "--tree", pathStr p.treePath,
   "--tmp", pathStr (tpiePath R),
   "--stats", pathStr (buildStatsPath R),
   "--max-memory", toString p.memory]
  ++ (match p.offset with
      | some o => ["--offset", toString o]
      | none => [])
  ++ (match p.limit with
      | some l => ["--limit", toString l]
      | none => [])

/-- The filesystem manipulation `commands.build_tree` performs before it
invokes the external build tool: `remove(tree_path)` unless `keep_existing`,
then `remove(stats_path)`, then `make_dir(TMP_PATH / "tpie")`.  Returns the
raised error (if any) together with the filesystem state at the moment the
tool is invoked. -/
def build_tree_pre (R : Roots) (fs : FsEntry) (p : BuildParams) :
    Option FsError × FsEntry :=
  match (if p.keepExisting then (none, fs) else remove R fs p.treePath) with
  | (some e, fs1) => (some e, fs1)
  | (none, fs1) =>
    match remove R fs1 (buildStatsPath R) with
    | (some e, fs2) => (some e, fs2)
    | (none, fs2) => make_dir fs2 (tpiePath R)

/-! ## `scripts/commands.py`: `BuildStats` parsing -/

/-- The named fields of the `BuildStats` namedtuple, in declaration order
(`BuildStats._fields`). -/
def buildStatsFields : List String :=
  ["read_io", "write_io", "total_io", "duration", "leaf_fanout", "internal_fanout"]

/-- `BuildStats`: the structured result of one index build. -/
structure BuildStats where
  read_io : ℚ
  write_io : ℚ
  total_io : ℚ
  duration : ℚ
  leaf_fanout : ℚ
  internal_fanout : ℚ
deriving Repr, DecidableEq

/-- Key lookup in a parsed JSON object (`stats[key]` on a Python dict,
modelled as an association list of numeric fields). -/
def dictLookup : List (String × ℚ) → String → Option ℚ
  | [], _ => none
  | c :: rest, k => if c.1 = k then some c.2 else dictLookup rest k

/-- `filtered_stats = {key: stats[key] for key in BuildStats._fields}` followed
by `BuildStats(**filtered_stats)`: look up each named field in the parsed JSON
object; a missing key raises (`KeyError`), any field not named in
`BuildStats._fields` is dropped. -/
def parse_build_stats (stats : List (String × ℚ)) : Except String BuildStats :=
  match dictLookup stats "read_io", dictLookup stats "write_io",
        dictLookup stats "total_io", dictLookup stats "duration",
        dictLookup stats "leaf_fanout", dictLookup stats "internal_fanout" with
  | some r, some w, some t, some d, some lf, some itf => .ok ⟨r, w, t, d, lf, itf⟩
  | _, _, _, _, _, _ => .error "KeyError"

/-! ## `scripts/compile.py`: the native build step -/

/-- `BuildConfiguration`: the keyword parameters of `compile.compile` that
select the native build's compile-time configuration. -/
structure BuildConfiguration where
  type : String
  blockSize : Nat
  beta : String
  lambdaSize : Nat
  leafFanout : Nat
  internalFanout : Nat
  bloomFilters : Bool
  naiveNodeBuilding : Bool
  cheapQuickload : Bool
  buildInspector : Bool
  buildOsm : Bool
  debugStats : Bool
deriving Repr, DecidableEq

/-- The default keyword values of `compile.compile`. -/
def defaultConfig : BuildConfiguration :=
  { type := "Release", blockSize := 4096, beta := "normal", lambdaSize := 40,
    leafFanout := 0, internalFanout := 0, bloomFilters := false,
    naiveNodeBuilding := false, cheapQuickload := false, buildInspector := false,
    buildOsm := false, debugStats := false }

/-- `compile.bool_str`. -/
def bool_str (cond : Bool) : String := if cond then "1" else "0"

/-- The `defines` dictionary of `compile.compile`, in insertion order. -/
def compileDefines (c : BuildConfiguration) : List (String × String) :=
  [("CMAKE_BUILD_TYPE", c.type),
   ("USE_BLOOM", bool_str c.bloomFilters),
   ("USE_NAIVE_NODE_BUILDING", bool_str c.naiveNodeBuilding),
   ("BLOCK_SIZE", toString c.blockSize),
   ("BETA", c.beta),
   ("LAMBDA", toString c.lambdaSize),
   ("LEAF_FANOUT", toString c.leafFanout),
   ("INTERNAL_FANOUT", toString c.internalFanout),
   ("CHEAP_QUICKLOAD", bool_str c.cheapQuickload),
   ("BUILD_INSPECTOR", bool_str c.buildInspector),
   ("BUILD_OSM", bool_str c.buildOsm),
   ("DEBUG_STATS", bool_str c.debugStats)]

/-- A native-tool invocation performed by `compile.compile`. -/
inductive CompileEvent where
  | cmakeStep (args : List String)
  | makeStep (jobs : Nat)
deriving Repr, DecidableEq

/-- The subprocess calls one call of `compile.compile` performs: a `cmake`
configure step followed by a `make` build step.  There is no check against any
previously applied configuration. -/
def compileCalls (codePath : String) (jobs : Nat) (c : BuildConfiguration) :
    List CompileEvent :=
  [.cmakeStep ((compileDefines c).flatMap
      (fun kv => ["-D", kv.1 ++ "=" ++ kv.2]) ++ [codePath]),
   .makeStep jobs]

/-- The native-tool invocations of a sequence of `compile.compile` calls, one
per configuration in order. -/
def applyConfigs (codePath : String) (jobs : Nat)
    (cfgs : List BuildConfiguration) : List CompileEvent :=
  cfgs.flatMap (compileCalls codePath jobs)

/-- Number of native build steps (`make` invocations) in a list of compile
events. -/
def countBuildSteps (evts : List CompileEvent) : Nat :=
  (evts.filter (fun e => match e with | .makeStep _ => true | _ => false)).length

/-! ## `scripts/eval_query.py`: the query model

Coordinates are modelled as integers; the Python code only ever formats them
with `str`, so nothing below depends on the numeric type. -/

/-- `BoundingBox`: `min`/`max` triples `(x, y, t)`; component `i` of the
Python tuple is the `i`-th projection. -/
structure BoundingBox where
  min : Int × Int × Int
  max : Int × Int × Int
deriving Repr, DecidableEq

/-- `BoundingBox.with_time(min_t, max_t)`: a new box with the same x and y
extents and the given time interval; the receiver is not mutated (the
embedding is pure, as is the Python method, which only constructs a new
`BoundingBox`). -/
def BoundingBox.with_time (b : BoundingBox) (minT maxT : Int) : BoundingBox :=
  { min := (b.min.1, b.min.2.1, minT), max := (b.max.1, b.max.2.1, maxT) }

/-- `SimpleQuery`: a bounding box plus label identifiers. -/
structure SimpleQuery where
  mbb : BoundingBox
  labels : List Nat
deriving Repr, DecidableEq

/-- `Query`: a named ordered list of simple queries (the sequenced query). -/
structure Query where
  name : String
  queries : List SimpleQuery
deriving Repr, DecidableEq

/-- The region argument `run_query` builds for one part:
`"{}, {}, {}, {}, {}, {}".format(min[0], max[0], min[1], max[1], min[2], max[2])`,
i.e. min-x, max-x, min-y, max-y, min-t, max-t. -/
def regionArg (b : BoundingBox) : String :=
  toString b.min.1 ++ ", " ++ toString b.max.1 ++ ", " ++
  toString b.min.2.1 ++ ", " ++ toString b.max.2.1 ++ ", " ++
  toString b.min.2.2 ++ ", " ++ toString b.max.2.2

/-- The label argument `run_query` builds for one part:
`",".join(map(str, sq.labels))`. -/
def labelArg (labels : List Nat) : String :=
  String.intercalate "," (labels.map toString)

/-- The argument list `run_query` hands to the external query tool: the fixed
`--tree`/`--stats` part, the optional `--results` part, then one
`-r <region> -l <labels>` pair appended per part of the query, in declared
order (the `for sq in query.queries: args.extend([...])` loop). -/
def run_query_args (queryExe tree statsP : String) (resultsP : Option String)
    (q : Query) : List String :=
  let base := [queryExe, "--tree", tree, "--stats", statsP]
  let base := base ++ (match resultsP with
    | some r => ["--results", r]
    | none => [])
  q.queries.foldl
    (fun args sq => args ++ ["-r", regionArg sq.mbb, "-l", labelArg sq.labels])
    base

/-- Observer for theorems: the `(-r, -l)` argument pairs occurring in a
command line, in order. -/
def extractPairs : List String → List (String × String)
  | "-r" :: r :: "-l" :: l :: rest => (r, l) :: extractPairs rest
  | _ :: rest => extractPairs rest
  | [] => []

/-- The scratch location of the query statistics artifact,
`TMP_PATH / "query-stats.json"`. -/
def queryStatsPath (R : Roots) : FsPath := R.tmp ++ ["query-stats.json"]

/-- The externally observable steps of one `run_query` call, in program
order: remove the stale stats artifact, run the `drop_cache` helper to clear
the OS page cache, invoke the query tool, read the stats artifact back. -/
inductive QueryEvent where
  | removeStats (p : FsPath)
  | dropCache
  | invokeQueryTool (args : List String)
  | readStats (p : FsPath)
deriving Repr, DecidableEq

/-- The event trace of `run_query(tree, query, results)`. -/
def run_query_events (R : Roots) (queryExe tree : String)
    (resultsP : Option String) (q : Query) : List QueryEvent :=
  [.removeStats (queryStatsPath R),
   .dropCache,
   .invokeQueryTool (run_query_args queryExe tree (pathStr (queryStatsPath R)) resultsP q),
   .readStats (queryStatsPath R)]

/-! ## `scripts/eval_query.py`: `measure_queries` -/

/-- The fields of the query statistics artifact that `measure_queries`
consumes (`stats["duration"]`, `stats["total_io"]`). -/
structure QueryRunStats where
  duration : ℚ
  total_io : ℚ
deriving Repr, DecidableEq

/-- The value `get_stats` computes for one metric: the per-query values keyed
by query name, and their average. -/
structure MetricStats where
  values : List (String × ℚ)
  avg : ℚ
deriving Repr, DecidableEq

/-- The dictionary `measure_set` returns: one `MetricStats` per metric. -/
structure SetResult where
  duration : MetricStats
  total_io : MetricStats
deriving Repr, DecidableEq

/-- `measure_set(queries)` with the effect of `run_query` abstracted into a
results oracle `f`: run every query once (`{query: run_query(tree, query) for
query in queries}`), then for each metric key build the name-keyed value map
and the average `sum(values) / max(len(values), 1)`. -/
def measure_set (f : Query → QueryRunStats) (queries : List Query) : SetResult :=
  let query_stats := queries.map (fun q => (q, f q))
  let get_stats := fun (proj : QueryRunStats → ℚ) =>
    let query_values := query_stats.map (fun qs => (qs.1, proj qs.2))
    let average := (query_values.map (fun qv => qv.2)).sum /
      ((max query_values.length 1 : Nat) : ℚ)
    { values := query_values.map (fun qv => (qv.1.name, qv.2)),
      avg := average : MetricStats }
  { duration := get_stats (fun s => s.duration),
    total_io := get_stats (fun s => s.total_io) }

/-- `measure_queries(tree, query_set)`: apply `measure_set` to every category
of the query set. -/
def measure_queries (f : Query → QueryRunStats)
    (query_set : List (String × List Query)) : List (String × SetResult) :=
  query_set.map (fun s => (s.1, measure_set f s.2))

/-! ## Helper lemmas about the filesystem model -/

theorem findChild_removeKey_self (cs : List (String × FsEntry)) (n : String) :
    findChild (removeKey cs n) n = none := by
  induction cs with
  | nil => rfl
  | cons c rest ih =>
    by_cases hc : c.1 = n
    · simpa [removeKey, hc] using ih
    · simp [removeKey, hc, findChild, ih]

theorem findChild_removeKey_ne (cs : List (String × FsEntry)) {m n : String}
    (h : m ≠ n) : findChild (removeKey cs n) m = findChild cs m := by
  induction cs with
  | nil => rfl
  | cons c rest ih =>
    by_cases hc : c.1 = n
    · have hnm : ¬ (n = m) := fun e => h e.symm
      simp [removeKey, hc, findChild, hnm, ih]
    · simp [removeKey, hc, findChild, ih]

theorem findChild_modifyKey_self (cs : List (String × FsEntry)) (n : String)
    (g : FsEntry → FsEntry) :
    findChild (modifyKey cs n g) n = (findChild cs n).map g := by
  induction cs with
  | nil => rfl
  | cons c rest ih =>
    by_cases hc : c.1 = n
    · simp [modifyKey, hc, findChild]
    · simp [modifyKey, hc, findChild, ih]

theorem findChild_modifyKey_ne (cs : List (String × FsEntry)) {m n : String}
    (g : FsEntry → FsEntry) (h : m ≠ n) :
    findChild (modifyKey cs n g) m = findChild cs m := by
  induction cs with
  | nil => rfl
  | cons c rest ih =>
    by_cases hc : c.1 = n
    · have hnm : ¬ (n = m) := fun e => h e.symm
      simp [modifyKey, hc, findChild, hnm, ih]
    · simp [modifyKey, hc, findChild, ih]

theorem findChild_append (cs ds : List (String × FsEntry)) (m : String) :
    findChild (cs ++ ds) m =
      (match findChild cs m with
       | some e => some e
       | none => findChild ds m) := by
  induction cs with
  | nil => rfl
  | cons c rest ih =>
    by_cases hc : c.1 = m
    · simp [findChild, hc]
    · simp [findChild, hc, ih]

theorem properAncestor_ne_nil {r p : FsPath} (h : properAncestor r p = true) :
    p ≠ [] := by
  intro hp
  subst hp
  simp [properAncestor] at h

theorem lookup_removeAt_self (p : FsPath) : ∀ (fs : FsEntry), p ≠ [] →
    lookupPath (removeAt fs p) p = none := by
  induction p with
  | nil => intro fs h; exact absurd rfl h
  | cons n rest ih =>
    intro fs _
    cases rest with
    | nil =>
      cases fs with
      | file s => simp [removeAt, lookupPath]
      | dir cs => simp [removeAt, lookupPath, findChild_removeKey_self]
    | cons r rs =>
      cases fs with
      | file s => simp [removeAt, lookupPath]
      | dir cs =>
        simp only [removeAt, lookupPath, findChild_modifyKey_self]
        cases hf : findChild cs n with
        | none => simp
        | some c => simpa using ih c (by simp)

theorem lookup_removeAt_none (p : FsPath) : ∀ (fs : FsEntry) (q : FsPath),
    lookupPath fs q = none → lookupPath (removeAt fs p) q = none := by
  induction p with
  | nil => intro fs q h; simpa [removeAt] using h
  | cons n rest ih =>
    intro fs q h
    cases rest with
    | nil =>
      cases fs with
      | file s => simpa [removeAt] using h
      | dir cs =>
        cases q with
        | nil => simp [lookupPath] at h
        | cons m qs =>
          by_cases hmn : m = n
          · subst hmn
            simp [removeAt, lookupPath, findChild_removeKey_self]
          · simp only [removeAt, lookupPath, findChild_removeKey_ne _ hmn]
            simpa [lookupPath] using h
    | cons r rs =>
      cases fs with
      | file s => simpa [removeAt] using h
      | dir cs =>
        cases q with
        | nil => simp [lookupPath] at h
        | cons m qs =>
          by_cases hmn : m = n
          · subst hmn
            simp only [removeAt, lookupPath, findChild_modifyKey_self]
            cases hf : findChild cs m with
            | none => simp
            | some c =>
              simp only [lookupPath, hf] at h
              simpa using ih c qs h
          · simp only [removeAt, lookupPath, findChild_modifyKey_ne _ _ hmn]
            simpa [lookupPath] using h

theorem lookup_removeAt_frame (p : FsPath) : ∀ (fs : FsEntry) (q : FsPath),
    isPathPrefix p q = false → isPathPrefix q p = false →
    lookupPath (removeAt fs p) q = lookupPath fs q := by
  induction p with
  | nil => intro fs q h1 h2; simp [isPathPrefix] at h1
  | cons n rest ih =>
    intro fs q h1 h2
    cases rest with
    | nil =>
      cases fs with
      | file s => simp [removeAt]
      | dir cs =>
        cases q with
        | nil => simp [isPathPrefix] at h2
        | cons m qs =>
          by_cases hmn : m = n
          · subst hmn
            simp [isPathPrefix] at h1
          · simp [removeAt, lookupPath, findChild_removeKey_ne _ hmn]
    | cons r rs =>
      cases fs with
      | file s => simp [removeAt]
      | dir cs =>
        cases q with
        | nil => simp [isPathPrefix] at h2
        | cons m qs =>
          by_cases hmn : m = n
          · subst hmn
            simp only [isPathPrefix, decide_True, Bool.true_and] at h1 h2
            simp only [removeAt, lookupPath, findChild_modifyKey_self]
            cases hf : findChild cs m with
            | none => simp
            | some c => simpa using ih c qs h1 h2
          · simp [removeAt, lookupPath, findChild_modifyKey_ne _ _ hmn]

theorem lookup_mkdirAt_self (p : FsPath) : ∀ (fs fs' : FsEntry),
    lookupPath fs p = none → mkdirAt fs p = some fs' →
    lookupPath fs' p = some (.dir []) := by
  induction p with
  | nil => intro fs fs' h _; simp [lookupPath] at h
  | cons n rest ih =>
    intro fs fs' h hm
    cases fs with
    | file s => simp [mkdirAt] at hm
    | dir cs =>
      cases hf : findChild cs n with
      | some c =>
        simp only [lookupPath, hf] at h
        cases hmc : mkdirAt c rest with
        | none => simp [mkdirAt, hf, hmc] at hm
        | some c' =>
          simp only [mkdirAt, hf, hmc] at hm
          cases hm
          simp only [lookupPath, findChild_modifyKey_self, hf, Option.map_some]
          exact ih c c' h hmc
      | none =>
        cases hmc : mkdirAt (.dir []) rest with
        | none => simp [mkdirAt, hf, hmc] at hm
        | some c' =>
          simp only [mkdirAt, hf, hmc] at hm
          cases hm
          have hfc : findChild (cs ++ [(n, c')]) n = some c' := by
            rw [findChild_append, hf]
            simp [findChild]
          simp only [lookupPath, hfc]
          cases rest with
          | nil =>
            simp only [mkdirAt] at hmc
            cases hmc
            simp [lookupPath]
          | cons r rs =>
            exact ih (.dir []) c' (by simp [lookupPath, findChild]) hmc

theorem lookup_mkdirAt_none (p : FsPath) : ∀ (fs fs' : FsEntry) (q : FsPath),
    mkdirAt fs p = some fs' → isPathPrefix q p = false →
    lookupPath fs q = none → lookupPath fs' q = none := by
  induction p with
  | nil =>
    intro fs fs' q hm _ h
    cases fs with
    | file s => simp [mkdirAt] at hm
    | dir cs => simp only [mkdirAt] at hm; cases hm; exact h
  | cons n rest ih =>
    intro fs fs' q hm hpre h
    cases fs with
    | file s => simp [mkdirAt] at hm
    | dir cs =>
      cases q with
      | nil => simp [lookupPath] at h
      | cons m qs =>
        cases hf : findChild cs n with
        | some c =>
          cases hmc : mkdirAt c rest with
          | none => simp [mkdirAt, hf, hmc] at hm
          | some c' =>
            simp only [mkdirAt, hf, hmc] at hm
            cases hm
            by_cases hmn : m = n
            · subst hmn
              simp only [isPathPrefix, decide_True, Bool.true_and] at hpre
              simp only [lookupPath, hf] at h
              simp only [lookupPath, findChild_modifyKey_self, hf, Option.map_some]
              exact ih c c' qs hmc hpre h
            · simp only [lookupPath, findChild_modifyKey_ne _ _ hmn]
              simpa [lookupPath] using h
        | none =>
          cases hmc : mkdirAt (.dir []) rest with
          | none => simp [mkdirAt, hf, hmc] at hm
          | some c' =>
            simp only [mkdirAt, hf, hmc] at hm
            cases hm
            by_cases hmn : m = n
            · subst hmn
              simp only [isPathPrefix, decide_True, Bool.true_and] at hpre
              have hfc : findChild (cs ++ [(m, c')]) m = some c' := by
                rw [findChild_append, hf]
                simp [findChild]
              simp only [lookupPath, hfc]
              cases qs with
              | nil => simp [isPathPrefix] at hpre
              | cons x xs =>
                exact ih (.dir []) c' (x :: xs) hmc hpre
                  (by simp [lookupPath, findChild])
            · have hnm : ¬ (n = m) := fun e => hmn e.symm
              have hfc : findChild (cs ++ [(n, c')]) m = findChild cs m := by
                rw [findChild_append]
                cases hcm : findChild cs m with
                | some e => simp
                | none => simp [findChild, hnm]
              simp only [lookupPath, hfc]
              simpa [lookupPath] using h

theorem lookup_mkdirAt_frame (p : FsPath) : ∀ (fs fs' : FsEntry) (q : FsPath),
    mkdirAt fs p = some fs' → isPathPrefix q p = false →
    isPathPrefix p q = false → lookupPath fs' q = lookupPath fs q := by
  induction p with
  | nil => intro fs fs' q _ _ h3; simp [isPathPrefix] at h3
  | cons n rest ih =>
    intro fs fs' q hm hpre1 hpre2
    cases fs with
    | file s => simp [mkdirAt] at hm
    | dir cs =>
      cases q with
      | nil => simp [isPathPrefix] at hpre1
      | cons m qs =>
        cases hf : findChild cs n with
        | some c =>
          cases hmc : mkdirAt c rest with
          | none => simp [mkdirAt, hf, hmc] at hm
          | some c' =>
            simp only [mkdirAt, hf, hmc] at hm
            cases hm
            by_cases hmn : m = n
            · subst hmn
              simp only [isPathPrefix, decide_True, Bool.true_and] at hpre1 hpre2
              simp only [lookupPath, findChild_modifyKey_self, hf, Option.map_some]
              exact ih c c' qs hmc hpre1 hpre2
            · simp [lookupPath, findChild_modifyKey_ne _ _ hmn]
        | none =>
          cases hmc : mkdirAt (.dir []) rest with
          | none => simp [mkdirAt, hf, hmc] at hm
          | some c' =>
            simp only [mkdirAt, hf, hmc] at hm
            cases hm
            by_cases hmn : m = n
            · subst hmn
              simp only [isPathPrefix, decide_True, Bool.true_and] at hpre1 hpre2
              have hfc : findChild (cs ++ [(m, c')]) m = some c' := by
                rw [findChild_append, hf]
                simp [findChild]
              simp only [lookupPath, hfc, hf]
              cases qs with
              | nil => simp [isPathPrefix] at hpre1
              | cons x xs =>
                exact lookup_mkdirAt_none rest (.dir []) c' (x :: xs) hmc hpre1
                  (by simp [lookupPath, findChild])
            · have hnm : ¬ (n = m) := fun e => hmn e.symm
              have hfc : findChild (cs ++ [(n, c')]) m = findChild cs m := by
                rw [findChild_append]
                cases hcm : findChild cs m with
                | some e => simp
                | none => simp [findChild, hnm]
              simp [lookupPath, hfc]

theorem remove_ok_lookup {R : Roots} {fs : FsEntry} {p : FsPath} {fs' : FsEntry}
    (h : remove R fs p = (none, fs')) : lookupPath fs' p = none := by
  unfold remove at h
  cases hl : lookupPath fs p with
  | none => rw [hl] at h; cases h; exact hl
  | some e =>
    rw [hl] at h
    by_cases hg : (properAncestor R.tmp p || properAncestor R.output p) = true
    · rw [if_pos hg] at h
      cases h
      have hne : p ≠ [] := by
        rcases Bool.or_eq_true_iff.mp hg with h' | h'
        · exact properAncestor_ne_nil h'
        · exact properAncestor_ne_nil h'
      exact lookup_removeAt_self p fs hne
    · rw [if_neg hg] at h
      cases h

theorem remove_ok_eq {R : Roots} {fs : FsEntry} {p : FsPath} {fs' : FsEntry}
    (h : remove R fs p = (none, fs')) : fs' = fs ∨ fs' = removeAt fs p := by
  unfold remove at h
  cases hl : lookupPath fs p with
  | none => rw [hl] at h; cases h; exact Or.inl rfl
  | some e =>
    rw [hl] at h
    by_cases hg : (properAncestor R.tmp p || properAncestor R.output p) = true
    · rw [if_pos hg] at h; cases h; exact Or.inr rfl
    · rw [if_neg hg] at h; cases h

theorem make_dir_ok {fs : FsEntry} {p : FsPath} {fs' : FsEntry}
    (h : make_dir fs p = (none, fs')) : mkdirAt fs p = some fs' := by
  unfold make_dir at h
  cases hm : mkdirAt fs p with
  | none => rw [hm] at h; cases h
  | some g => rw [hm] at h; cases h; rfl

/-! ## Helper lemmas about command lines and aggregation -/

theorem dictLookup_append_some {l₁ l₂ : List (String × ℚ)} {k : String} {v : ℚ}
    (h : dictLookup l₁ k = some v) : dictLookup (l₁ ++ l₂) k = some v := by
  induction l₁ with
  | nil => simp [dictLookup] at h
  | cons c rest ih =>
    by_cases hc : c.1 = k
    · simpa [dictLookup, hc] using h
    · rw [List.cons_append]
      simp only [dictLookup, hc, if_false] at h ⊢
      exact ih h

theorem run_query_foldl (qs : List SimpleQuery) (base : List String) :
    qs.foldl
        (fun args sq => args ++ ["-r", regionArg sq.mbb, "-l", labelArg sq.labels])
        base
      = base ++ qs.flatMap
          (fun sq => ["-r", regionArg sq.mbb, "-l", labelArg sq.labels]) := by
  induction qs generalizing base with
  | nil => simp
  | cons sq rest ih => simp [List.foldl_cons, ih, List.append_assoc]

theorem extractPairs_quad (r l : String) (rest : List String) :
    extractPairs ("-r" :: r :: "-l" :: l :: rest) = (r, l) :: extractPairs rest := by
  rfl

theorem extractPairs_cons_ne {a : String} (rest : List String) (h : ¬ (a = "-r")) :
    extractPairs (a :: rest) = extractPairs rest := by
  rcases rest with _ | ⟨b, _ | ⟨c, _ | ⟨d, t⟩⟩⟩ <;> simp [extractPairs, h]

theorem extractPairs_flat (qs : List SimpleQuery) :
    extractPairs (qs.flatMap
        (fun sq => ["-r", regionArg sq.mbb, "-l", labelArg sq.labels]))
      = qs.map (fun sq => (regionArg sq.mbb, labelArg sq.labels)) := by
  induction qs with
  | nil => rfl
  | cons sq rest ih => simp [extractPairs_quad, ih]

/-! ## Concrete fixtures used by witnesses and counterexamples -/

/-- Designated roots `/tmp` and `/output` for concrete runs. -/
def sampleRoots : Roots := ⟨["tmp"], ["output"]⟩

/-- A small filesystem: empty tmp and output roots plus a file outside them. -/
def sampleFs : FsEntry :=
  .dir [("tmp", .dir []), ("output", .dir []),
        ("etc", .dir [("passwd", .file 3)])]

/-- A filesystem with an existing tree artifact under the output root. -/
def buildFs : FsEntry :=
  .dir [("tmp", .dir []), ("output", .dir [("t", .file 7)])]

/-- Build parameters of a fresh (non-incremental) build. -/
def freshBuild : BuildParams :=
  ⟨"hilbert", ["output", "t"], "/data/e", 64, none, none, false⟩

/-- Build parameters of an incremental `keep_existing` build step. -/
def incrementalBuild : BuildParams :=
  ⟨"obo", ["output", "t"], "/data/e", 64, some 1000, some 500, true⟩

/-! ## Claims -/

/-- C1 (amended): for every path `p` that exists in the filesystem and does
not resolve to a proper descendant of the designated tmp or output root,
`remove(p)` raises `PathSafetyViolation` and leaves the filesystem unchanged;
for a path that does not exist, `remove(p)` returns without raising and also
leaves the filesystem unchanged. -/
theorem C1_remove_safety (R : Roots) (fs : FsEntry) (p : FsPath) :
    (∀ e, lookupPath fs p = some e →
      properAncestor R.tmp p = false → properAncestor R.output p = false →
      remove R fs p = (some .pathSafetyViolation, fs)) ∧
    (lookupPath fs p = none → remove R fs p = (none, fs)) := by
  constructor
  · intro e he ht ho
    unfold remove
    rw [he]
    simp [ht, ho]
  · intro h
    unfold remove
    rw [h]

/-- C1 counterexample: the claim as stated quantifies over all paths outside
the designated roots, but for a path that does not exist `remove` returns
normally instead of raising `PathSafetyViolation`. -/
theorem C1_counterexample :
    properAncestor sampleRoots.tmp ["nope"] = false ∧
    properAncestor sampleRoots.output ["nope"] = false ∧
    (remove sampleRoots sampleFs ["nope"]).1 = none := by
  exact ⟨rfl, rfl, rfl⟩

/-- C1 witness: `remove` of the existing `/etc/passwd` raises and leaves the
filesystem unchanged; `remove` of a missing path is a silent no-op. -/
theorem C1_witness :
    remove sampleRoots sampleFs ["etc", "passwd"]
        = (some .pathSafetyViolation, sampleFs) ∧
    remove sampleRoots sampleFs ["nope"] = (none, sampleFs) :=
  ⟨(C1_remove_safety sampleRoots sampleFs ["etc", "passwd"]).1 (.file 3) rfl rfl rfl,
   (C1_remove_safety sampleRoots sampleFs ["nope"]).2 rfl⟩

/-- C7 (amended): whenever `reset_dir(p)` completes without raising, the
subsequent `file_size(p)` (the spec's `directory_size`) yields 0: the
location holds a freshly created empty directory. -/
theorem C7_reset_dir_size (R : Roots) (fs : FsEntry) (p : FsPath) (fs' : FsEntry)
    (h : reset_dir R fs p = (none, fs')) : file_size fs' p = .ok 0 := by
  unfold reset_dir at h
  rcases hrem : remove R fs p with ⟨o, fs1⟩
  rw [hrem] at h
  cases o with
  | some e => simp at h
  | none =>
    have hm : mkdirAt fs1 p = some fs' := make_dir_ok h
    have hl : lookupPath fs1 p = none := remove_ok_lookup hrem
    have hres := lookup_mkdirAt_self p fs1 fs' hl hm
    unfold file_size
    rw [hres]
    rfl

/-- C7 counterexample: for a path that exists outside the designated roots,
`reset_dir` raises `PathSafetyViolation` (from the guarded `remove`), so the
composite never yields 0 — the untouched content still has size 3. -/
theorem C7_counterexample :
    (reset_dir sampleRoots sampleFs ["etc", "passwd"]).1
        = some FsError.pathSafetyViolation ∧
    file_size (reset_dir sampleRoots sampleFs ["etc", "passwd"]).2
        ["etc", "passwd"] = .ok 3 := by
  exact ⟨rfl, rfl⟩

/-- C7 witness: resetting a directory under the tmp root succeeds and its
size afterwards is 0. -/
theorem C7_witness :
    file_size (reset_dir sampleRoots sampleFs ["tmp", "x"]).2 ["tmp", "x"]
      = .ok 0 :=
  C7_reset_dir_size sampleRoots sampleFs ["tmp", "x"]
    (reset_dir sampleRoots sampleFs ["tmp", "x"]).2 rfl

/-- C3: if `keep_existing` is false, any existing content at the tree
location has been removed (via the guarded `remove`) by the time the external
build tool is invoked; if `keep_existing` is true, the content at the tree
location at invocation time is exactly what was there before the call, so
successive incremental builds accumulate rather than overwrite.  The path
disjointness hypotheses say that the tree location is not nested with the
scratch locations (`tmp/stats.json`, `tmp/tpie`) that `build_tree` also
touches. -/
theorem C3_build_tree_keep_existing (R : Roots) (fs : FsEntry) (p : BuildParams)
    (fs' : FsEntry) :
    (p.keepExisting = false → build_tree_pre R fs p = (none, fs') →
      isPathPrefix p.treePath (tpiePath R) = false →
      lookupPath fs' p.treePath = none) ∧
    (p.keepExisting = true → build_tree_pre R fs p = (none, fs') →
      isPathPrefix p.treePath (buildStatsPath R) = false →
      isPathPrefix (buildStatsPath R) p.treePath = false →
      isPathPrefix p.treePath (tpiePath R) = false →
      isPathPrefix (tpiePath R) p.treePath = false →
      lookupPath fs' p.treePath = lookupPath fs p.treePath) := by
  constructor
  · intro hk h hpre
    unfold build_tree_pre at h
    rw [hk] at h
    have h0 : (match remove R fs p.treePath with
        | (some e, fs1) => (some e, fs1)
        | (none, fs1) =>
          match remove R fs1 (buildStatsPath R) with
          | (some e, fs2) => (some e, fs2)
          | (none, fs2) => make_dir fs2 (tpiePath R)) = (none, fs') := h
    rcases h1 : remove R fs p.treePath with ⟨o1, fs1⟩
    rw [h1] at h0
    cases o1 with
    | some e => simp at h0
    | none =>
      have hl1 : lookupPath fs1 p.treePath = none := remove_ok_lookup h1
      have h1' : (match remove R fs1 (buildStatsPath R) with
          | (some e, fs2) => (some e, fs2)
          | (none, fs2) => make_dir fs2 (tpiePath R)) = (none, fs') := h0
      rcases h2 : remove R fs1 (buildStatsPath R) with ⟨o2, fs2⟩
      rw [h2] at h1'
      cases o2 with
      | some e => simp at h1'
      | none =>
        have hl2 : lookupPath fs2 p.treePath = none := by
          rcases remove_ok_eq h2 with he | he
          · rw [he]; exact hl1
          · rw [he]; exact lookup_removeAt_none _ _ _ hl1
        have hm : mkdirAt fs2 (tpiePath R) = some fs' := make_dir_ok h1'
        exact lookup_mkdirAt_none (tpiePath R) fs2 fs' p.treePath hm hpre hl2
  · intro hk h hs1 hs2 ht1 ht2
    unfold build_tree_pre at h
    rw [hk] at h
    have h0 : (match remove R fs (buildStatsPath R) with
        | (some e, fs2) => (some e, fs2)
        | (none, fs2) => make_dir fs2 (tpiePath R)) = (none, fs') := h
    rcases h2 : remove R fs (buildStatsPath R) with ⟨o2, fs2⟩
    rw [h2] at h0
    cases o2 with
    | some e => simp at h0
    | none =>
      have he2 : lookupPath fs2 p.treePath = lookupPath fs p.treePath := by
        rcases remove_ok_eq h2 with he | he
        · rw [he]
        · rw [he]; exact lookup_removeAt_frame _ _ _ hs2 hs1
      have hm : mkdirAt fs2 (tpiePath R) = some fs' := make_dir_ok h0
      rw [lookup_mkdirAt_frame (tpiePath R) fs2 fs' p.treePath hm ht1 ht2, he2]

/-- C3 witness: a fresh build removes the existing tree artifact before
invoking the tool; an incremental (`keep_existing`) build leaves it exactly
in place at invocation time. -/
theorem C3_witness :
    lookupPath (build_tree_pre sampleRoots buildFs freshBuild).2 ["output", "t"]
        = none ∧
    lookupPath (build_tree_pre sampleRoots buildFs incrementalBuild).2
        ["output", "t"]
      = lookupPath buildFs ["output", "t"] :=
  ⟨(C3_build_tree_keep_existing sampleRoots buildFs freshBuild
      (build_tree_pre sampleRoots buildFs freshBuild).2).1 rfl rfl rfl,
   (C3_build_tree_keep_existing sampleRoots buildFs incrementalBuild
      (build_tree_pre sampleRoots buildFs incrementalBuild).2).2
      rfl rfl rfl rfl rfl rfl⟩

/-- C2 counterexample: `compile` keeps no record of a previously applied
configuration — applying the identical configuration twice in a row runs the
native build step (the `make` invocation) twice, not once as claimed. -/
theorem C2_counterexample :
    countBuildSteps (applyConfigs "code" 1 [defaultConfig, defaultConfig]) = 2 ∧
    countBuildSteps (applyConfigs "code" 1 [defaultConfig, defaultConfig]) ≠ 1 := by
  exact ⟨rfl, by decide⟩

/-- C2 (amended): every call of `compile` triggers the native build step,
regardless of whether its configuration equals the previously applied one:
a sequence of applications triggers exactly one build step per application
(so a repeated identical configuration builds twice, and a differing
configuration also builds again). -/
theorem C2_every_apply_builds (codePath : String) (jobs : Nat)
    (cfgs : List BuildConfiguration) :
    countBuildSteps (applyConfigs codePath jobs cfgs) = cfgs.length := by
  induction cfgs with
  | nil => rfl
  | cons c rest ih =>
    have step : applyConfigs codePath jobs (c :: rest)
        = compileCalls codePath jobs c ++ applyConfigs codePath jobs rest := rfl
    have hc : countBuildSteps (compileCalls codePath jobs c) = 1 := rfl
    unfold countBuildSteps at ih hc ⊢
    rw [step, List.filter_append, List.length_append, ih, hc, List.length_cons]
    omega

/-- C4: the query-tool command line contains exactly one `(-r region,
-l labels)` pair per part of the sequenced query, in the declared part order,
with the region rendered as min-x, max-x, min-y, max-y, min-t, max-t and the
labels comma-separated; in particular a length-1 query transmits exactly one
pair.  The hypotheses record that none of the fixed path arguments is the
literal string `-r`. -/
theorem C4_run_query_pairs (queryExe tree statsP : String)
    (resultsP : Option String) (q : Query)
    (hexe : ¬ (queryExe = "-r")) (htree : ¬ (tree = "-r"))
    (hstats : ¬ (statsP = "-r"))
    (hres : ∀ r, resultsP = some r → ¬ (r = "-r")) :
    extractPairs (run_query_args queryExe tree statsP resultsP q)
      = q.queries.map (fun sq => (regionArg sq.mbb, labelArg sq.labels)) := by
  unfold run_query_args
  cases resultsP with
  | none =>
    rw [run_query_foldl]
    simp only [List.append_nil, List.cons_append, List.nil_append]
    rw [extractPairs_cons_ne _ hexe,
        extractPairs_cons_ne _ (by decide : ¬ ("--tree" = "-r")),
        extractPairs_cons_ne _ htree,
        extractPairs_cons_ne _ (by decide : ¬ ("--stats" = "-r")),
        extractPairs_cons_ne _ hstats,
        extractPairs_flat]
  | some r =>
    rw [run_query_foldl]
    simp only [List.cons_append, List.nil_append]
    rw [extractPairs_cons_ne _ hexe,
        extractPairs_cons_ne _ (by decide : ¬ ("--tree" = "-r")),
        extractPairs_cons_ne _ htree,
        extractPairs_cons_ne _ (by decide : ¬ ("--stats" = "-r")),
        extractPairs_cons_ne _ hstats,
        extractPairs_cons_ne _ (by decide : ¬ ("--results" = "-r")),
        extractPairs_cons_ne _ (hres r rfl),
        extractPairs_flat]

/-- C4 witness: a length-1 sequenced query over the box with min (1, 3, 5)
and max (2, 4, 6) and label set {7} transmits exactly the one pair
("1, 2, 3, 4, 5, 6", "7"). -/
theorem C4_witness :
    extractPairs (run_query_args "build/query" "/output/t"
        "/tmp/query-stats.json" none ⟨"q0", [⟨⟨(1, 3, 5), (2, 4, 6)⟩, [7]⟩]⟩)
      = [("1, 2, 3, 4, 5, 6", "7")] := by
  rw [C4_run_query_pairs "build/query" "/output/t" "/tmp/query-stats.json" none
      ⟨"q0", [⟨⟨(1, 3, 5), (2, 4, 6)⟩, [7]⟩]⟩
      (by decide) (by decide) (by decide) (fun r hr => by cases hr)]
  rfl

/-- C5: `build_tree` extracts from the statistics artifact exactly the six
`BuildStats` fields: a successful parse returns precisely the looked-up field
values, a missing required field is a hard error rather than a partial
result, and extra fields in the artifact are ignored (appending unrelated
fields does not change the parse when all required fields are present). -/
theorem C5_parse_build_stats (stats extra : List (String × ℚ)) :
    (∀ s, parse_build_stats stats = .ok s ↔
      (dictLookup stats "read_io" = some s.read_io ∧
       dictLookup stats "write_io" = some s.write_io ∧
       dictLookup stats "total_io" = some s.total_io ∧
       dictLookup stats "duration" = some s.duration ∧
       dictLookup stats "leaf_fanout" = some s.leaf_fanout ∧
       dictLookup stats "internal_fanout" = some s.internal_fanout)) ∧
    ((∃ k ∈ buildStatsFields, dictLookup stats k = none) ↔
      parse_build_stats stats = .error "KeyError") ∧
    ((∀ k ∈ buildStatsFields, (dictLookup stats k).isSome) →
      parse_build_stats (stats ++ extra) = parse_build_stats stats) := by
  refine ⟨?_, ?_, ?_⟩
  · intro s
    obtain ⟨sr, sw, st, sd, sl, si⟩ := s
    unfold parse_build_stats
    cases hr : dictLookup stats "read_io" <;>
      cases hw : dictLookup stats "write_io" <;>
      cases ht : dictLookup stats "total_io" <;>
      cases hd : dictLookup stats "duration" <;>
      cases hl : dictLookup stats "leaf_fanout" <;>
      cases hi : dictLookup stats "internal_fanout" <;>
      simp [BuildStats.mk.injEq, and_assoc]
  · unfold parse_build_stats
    cases hr : dictLookup stats "read_io" <;>
      cases hw : dictLookup stats "write_io" <;>
      cases ht : dictLookup stats "total_io" <;>
      cases hd : dictLookup stats "duration" <;>
      cases hl : dictLookup stats "leaf_fanout" <;>
      cases hi : dictLookup stats "internal_fanout" <;>
      simp [buildStatsFields, hr, hw, ht, hd, hl, hi]
  · intro hall
    have hr := (Option.isSome_iff_exists.mp
      (hall "read_io" (by simp [buildStatsFields])))
    have hw := (Option.isSome_iff_exists.mp
      (hall "write_io" (by simp [buildStatsFields])))
    have ht := (Option.isSome_iff_exists.mp
      (hall "total_io" (by simp [buildStatsFields])))
    have hd := (Option.isSome_iff_exists.mp
      (hall "duration" (by simp [buildStatsFields])))
    have hl := (Option.isSome_iff_exists.mp
      (hall "leaf_fanout" (by simp [buildStatsFields])))
    have hi := (Option.isSome_iff_exists.mp
      (hall "internal_fanout" (by simp [buildStatsFields])))
    obtain ⟨r, hr⟩ := hr
    obtain ⟨w, hw⟩ := hw
    obtain ⟨t, ht⟩ := ht
    obtain ⟨d, hd⟩ := hd
    obtain ⟨lf, hl⟩ := hl
    obtain ⟨itf, hi⟩ := hi
    unfold parse_build_stats
    rw [hr, hw, ht, hd, hl, hi,
        dictLookup_append_some hr, dictLookup_append_some hw,
        dictLookup_append_some ht, dictLookup_append_some hd,
        dictLookup_append_some hl, dictLookup_append_some hi]

/-- C5 witness: a concrete artifact with all six fields and an extra field
parses to exactly those field values, the extra field being ignored; a
concrete artifact missing `write_io` is a hard error. -/
theorem C5_witness :
    parse_build_stats
        ([("read_io", 1), ("write_io", 2), ("total_io", 3), ("duration", 4),
          ("leaf_fanout", 5), ("internal_fanout", 6)] ++ [("extra", 99)])
      = parse_build_stats
          [("read_io", 1), ("write_io", 2), ("total_io", 3), ("duration", 4),
           ("leaf_fanout", 5), ("internal_fanout", 6)] ∧
    parse_build_stats
        [("read_io", 1), ("write_io", 2), ("total_io", 3), ("duration", 4),
         ("leaf_fanout", 5), ("internal_fanout", 6)]
      = .ok ⟨1, 2, 3, 4, 5, 6⟩ ∧
    parse_build_stats [("read_io", 1)] = .error "KeyError" :=
  ⟨(C5_parse_build_stats
      [("read_io", 1), ("write_io", 2), ("total_io", 3), ("duration", 4),
       ("leaf_fanout", 5), ("internal_fanout", 6)] [("extra", 99)]).2.2
      (by decide),
   ((C5_parse_build_stats
      [("read_io", 1), ("write_io", 2), ("total_io", 3), ("duration", 4),
       ("leaf_fanout", 5), ("internal_fanout", 6)] []).1 ⟨1, 2, 3, 4, 5, 6⟩).mpr
      (by refine ⟨?_, ?_, ?_, ?_, ?_, ?_⟩ <;> rfl),
   ((C5_parse_build_stats [("read_io", 1)] []).2.1).mp
      ⟨"write_io", by simp [buildStatsFields], rfl⟩⟩

/-- C6: for a non-empty query category, `measure_set` runs the query oracle
once per query in declared order, keys the per-query values of each metric
(duration, total I/O) by query name, and its reported average times the
number of queries equals the sum of the metric values — i.e. the average is
the arithmetic mean over the category's queries. -/
theorem C6_measure_set_mean (f : Query → QueryRunStats) (qs : List Query)
    (h : qs ≠ []) :
    (measure_set f qs).duration.values
        = qs.map (fun q => (q.name, (f q).duration)) ∧
    (measure_set f qs).total_io.values
        = qs.map (fun q => (q.name, (f q).total_io)) ∧
    (measure_set f qs).duration.avg * (qs.length : ℚ)
        = (qs.map (fun q => (f q).duration)).sum ∧
    (measure_set f qs).total_io.avg * (qs.length : ℚ)
        = (qs.map (fun q => (f q).total_io)).sum := by
  have hlen : qs.length ≠ 0 := fun h0 => h (List.length_eq_zero.mp h0)
  have hne : ((qs.length : ℕ) : ℚ) ≠ 0 := Nat.cast_ne_zero.mpr hlen
  have hone : (1 : ℚ) ≤ (qs.length : ℚ) := by
    exact_mod_cast Nat.one_le_iff_ne_zero.mpr hlen
  have hq : ((qs.length : ℚ) ⊔ 1) = (qs.length : ℚ) := sup_eq_left.mpr hone
  unfold measure_set
  refine ⟨?_, ?_, ?_, ?_⟩ <;>
    simp [List.map_map, Function.comp_def, hq, div_mul_cancel₀ _ hne]

/-- C6 witness: a category of two queries with total I/O 10 and 30 yields
per-query values keyed by name and an average of 20. -/
theorem C6_witness :
    (measure_set
        (fun q => if q.name = "q1" then ⟨1, 10⟩ else ⟨2, 30⟩)
        [⟨"q1", []⟩, ⟨"q2", []⟩]).total_io.values
      = [("q1", 10), ("q2", 30)] ∧
    (measure_set
        (fun q => if q.name = "q1" then ⟨1, 10⟩ else ⟨2, 30⟩)
        [⟨"q1", []⟩, ⟨"q2", []⟩]).total_io.avg * 2 = 40 ∧
    (measure_set
        (fun q => if q.name = "q1" then ⟨1, 10⟩ else ⟨2, 30⟩)
        [⟨"q1", []⟩, ⟨"q2", []⟩]).total_io.avg = 20 := by
  have h := C6_measure_set_mean
    (fun q => if q.name = "q1" then ⟨1, 10⟩ else ⟨2, 30⟩)
    [⟨"q1", []⟩, ⟨"q2", []⟩] (by simp)
  have hv : (measure_set
      (fun q => if q.name = "q1" then ⟨1, 10⟩ else ⟨2, 30⟩)
      [⟨"q1", []⟩, ⟨"q2", []⟩]).total_io.values = [("q1", 10), ("q2", 30)] := by
    rw [h.2.1]; rfl
  have ha : (measure_set
      (fun q => if q.name = "q1" then ⟨1, 10⟩ else ⟨2, 30⟩)
      [⟨"q1", []⟩, ⟨"q2", []⟩]).total_io.avg * 2 = 40 := by
    have h40 := h.2.2.2
    norm_num at h40
    rw [if_neg (show ¬ (("q2" : String) = "q1") by decide)] at h40
    norm_num at h40
    linarith
  exact ⟨hv, ha, by linarith⟩

/-- C8: in every execution of `run_query` (all of which are cold-cache
measurements: the cache drop is unconditional), the OS page-cache drop occurs
exactly once, the query tool is invoked exactly once, and the drop occurs
strictly before the invocation. -/
theorem C8_drop_cache_before_query (R : Roots) (queryExe tree : String)
    (resultsP : Option String) (q : Query) :
    ((run_query_events R queryExe tree resultsP q).filter
        (fun e => match e with | .dropCache => true | _ => false)).length = 1 ∧
    ((run_query_events R queryExe tree resultsP q).filter
        (fun e => match e with | .invokeQueryTool _ => true | _ => false)).length
        = 1 ∧
    (run_query_events R queryExe tree resultsP q).findIdx
        (fun e => match e with | .dropCache => true | _ => false)
      < (run_query_events R queryExe tree resultsP q).findIdx
        (fun e => match e with | .invokeQueryTool _ => true | _ => false) := by
  refine ⟨rfl, rfl, ?_⟩
  show 1 < 2
  omega

/-- C9: `with_time` returns a new box with the x and y extents of the
receiver and the given time interval, leaving the receiver unchanged (the
method only constructs a new box); in particular the box with corners
(0, 0, 0) and (10, 10, 10) becomes the box with corners (0, 0, 5) and
(10, 10, 20) under `with_time(5, 20)`. -/
theorem C9_with_time (b : BoundingBox) (minT maxT : Int) :
    (b.with_time minT maxT).min = (b.min.1, b.min.2.1, minT) ∧
    (b.with_time minT maxT).max = (b.max.1, b.max.2.1, maxT) ∧
    BoundingBox.with_time ⟨(0, 0, 0), (10, 10, 10)⟩ 5 20
      = ⟨(0, 0, 5), (10, 10, 20)⟩ :=
  ⟨rfl, rfl, rfl⟩

/-- C10: aggregating a category that contains no queries yields an average of
0 for each metric — the divisor is `max(len, 1) = 1`, so no division by zero
occurs — and `measure_queries` records exactly that result for the empty
category. -/
theorem C10_empty_category_avg (f : Query → QueryRunStats) :
    (measure_set f []).duration.avg = 0 ∧
    (measure_set f []).total_io.avg = 0 ∧
    measure_queries f [("empty", [])] = [("empty", measure_set f [])] := by
  refine ⟨?_, ?_, rfl⟩ <;> simp [measure_set]
